import Mathlib

/-!
Shallow embedding of `mol_env.py`: a Markov decision process over molecular
graphs.  The chemistry backend (RDKit) is an external collaborator; it is
modelled as an abstract `Oracle` record over an abstract graph type `G`,
exactly at the interface boundary the module uses (parse, canonical
serialization, sanitize, kekulize, ring membership, shortest path,
implicit-hydrogen counts, and the graph-edit primitives).  The enumeration
functions and the `Molecule` environment are translated statement by
statement from the source; Python mutation is made explicit by threading the
`Molecule` record through each method, and a Python `raise` becomes an
`Except.error` returned together with the (unchanged so far) record.
-/

namespace MolEnv

/-- Bond types as the enumeration code observes them: the three standard
orders that appear in the `bond_orders` list, plus aromatic and any other
backend-specific type (both of which fail the `not in bond_orders` test). -/
inductive BondType where
  | single
  | double
  | triple
  | aromatic
  | other
deriving DecidableEq

/-- Embeds `bond_orders.index(bond.GetBondType())` for the list
`[None, SINGLE, DOUBLE, TRIPLE]`: `some i` when the bond type is standard
(`i` its integer order), `none` when the membership test
`bond.GetBondType() not in bond_orders` fails the bond. -/
def stdOrder : BondType → Option Nat
  | .single => some 1
  | .double => some 2
  | .triple => some 3
  | .aromatic => none
  | .other => none

/-- The Chemical Oracle boundary (RDKit plus the `mol_utility` valence
table).  `sanitize` returns `none` exactly when
`Chem.SanitizeMol(·, catchErrors=True)` reports a nonzero error flag, and
otherwise the (possibly normalized) graph.  `addAtomBond mol a t i` bundles
`RWMol` copy + `AddAtom(Atom(t))` + `AddBond(a, idx, order i)`;
`addBond`/`replaceBond`/`removeBond` likewise act on a copy and return it.
`maxValence` is `mol_utility.atom_valences` for a single atom type. -/
structure Oracle (G : Type) where
  parse : String → Option G
  toSmiles : G → String
  sanitize : G → Option G
  kekulize : G → G
  atoms : G → List Nat
  numImplicitHs : G → Nat → Nat
  isInRing : G → Nat → Bool
  shortestPathLen : G → Nat → Nat → Nat
  bonds : G → List (Nat × Nat)
  bondType : G → Nat → Nat → Option BondType
  addAtomBond : G → Nat → String → Nat → G
  addBond : G → Nat → Nat → Nat → G
  replaceBond : G → Nat → Nat → Nat → G
  removeBond : G → Nat → Nat → G
  maxValence : String → Nat

/-- Python exceptions that `mol_env.py` can raise at this interface. -/
inductive PyError where
  | valueError : String → PyError
  | typeError : String → PyError
deriving DecidableEq

/-- The spec's `InvalidActionError`: `ValueError('Invalid action.')`. -/
def InvalidActionError : PyError := .valueError "Invalid action."

/-- The spec's `EpisodeTerminatedError`:
`ValueError('This episode is terminated.')`. -/
def EpisodeTerminatedError : PyError := .valueError "This episode is terminated."

/-- Python's `str.split(sep)` for a single-character separator, on the
character list of the string: splits at every occurrence, keeping empty
pieces, and always returns at least one piece. -/
def splitOnCharAux (c : Char) : List Char → List Char → List (List Char)
  | [], acc => [acc.reverse]
  | x :: xs, acc =>
    if x = c then acc.reverse :: splitOnCharAux c xs []
    else splitOnCharAux c xs (x :: acc)

/-- Embeds `smiles.split('.')` — the fragment split used by `_bond_removal`. -/
def splitDot (s : String) : List String :=
  (splitOnCharAux '.' s.data []).map String.mk

/-- Comparison key of `sorted(parts, key=len)`. -/
def lenLe (a b : String) : Prop := a.length ≤ b.length

instance : DecidableRel lenLe := fun a b => Nat.decLe a.length b.length

instance : IsTotal String lenLe := ⟨fun a b => Nat.le_total a.length b.length⟩

instance : IsTrans String lenLe := ⟨fun _ _ _ => Nat.le_trans⟩

/-- Embeds `sorted(parts, key=len)`: Python's sort is stable and
ascending, which insertion sort with `lenLe` reproduces exactly. -/
def sortFragsByLen (l : List String) : List String := l.insertionSort lenLe

/-- Embeds `atoms_with_free_valence[i]`: atom indices whose implicit-hydrogen count
is at least `i`.  The Python dict holds this value for each key
`i ∈ range(1, max valence)`; it is modelled as a total function with the
same defining filter. -/
def freeValenceAtoms {G : Type} (o : Oracle G) (mol : G) (i : Nat) : List Nat :=
  (o.atoms mol).filter (fun a => decide (i ≤ o.numImplicitHs mol a))

/-- One candidate of `_atom_addition`, for bond order `i`, attachment atom
`a` and element `t`: guarded by `atom_valences[element] >= i`, then the new
atom and bond are added, sanitized (discarded on failure) and serialized. -/
def atomAdditionCandidate {G : Type} (o : Oracle G) (mol : G) (i a : Nat)
    (t : String) : Option String :=
  if i ≤ o.maxValence t then
    (o.sanitize (o.addAtomBond mol a t i)).map o.toSmiles
  else none

/-- Insert an optional candidate into the accumulated action set (the
`continue` / `set.add` pattern shared by the three edit families). -/
def addCandidate (acc : Finset String) : Option String → Finset String
  | none => acc
  | some s => insert s acc

/-- Embeds `_atom_addition`: for each bond order `i` in the `bond_orders` dict keys
`{1, 2, 3}`, each atom with free valence ≥ `i`, and each candidate element,
collect the sanitized canonical serializations. -/
def _atom_addition {G : Type} (o : Oracle G) (mol : G) (atom_types : List String) :
    Finset String :=
  [1, 2, 3].foldl (fun acc i =>
    (freeValenceAtoms o mol i).foldl (fun acc a =>
      atom_types.foldl (fun acc t =>
        addCandidate acc (atomAdditionCandidate o mol i a t)) acc) acc) ∅

/-- Embeds `itertools.combinations(l, 2)`: unordered pairs in list order. -/
def combos2 {α : Type} : List α → List (α × α)
  | [] => []
  | x :: xs => (xs.map fun y => (x, y)) ++ combos2 xs

/-- One candidate of `_bond_addition` for free-valence level `valence` and
the atom pair `(a1, a2)`.  The bond (and its type) is read from the
un-kekulized graph; the edit is applied to a kekulized copy.  If a bond
exists: skip non-standard orders, add `valence` to the order, skip if the
result exceeds triple, otherwise replace the bond.  If no bond exists: skip
when bonds between rings are disallowed and both atoms are in rings; skip
when a ring-size whitelist is given and the shortest-path length (number of
atoms on the path, as returned by `GetShortestPath`) is not in it; otherwise
add a new bond of order `valence`.  The edited copy is sanitized (discarded
on failure) and serialized. -/
def additionCandidate {G : Type} (o : Oracle G) (mol : G)
    (allowed_ring_sizes : Option (Finset Nat)) (allow_bonds_between_rings : Bool)
    (valence a1 a2 : Nat) : Option String :=
  let kek := o.kekulize mol
  match o.bondType mol a1 a2 with
  | some bt =>
    match stdOrder bt with
    | none => none
    | some ord =>
      if ord + valence < 4 then
        (o.sanitize (o.replaceBond kek a1 a2 (ord + valence))).map o.toSmiles
      else none
  | none =>
    let added := (o.sanitize (o.addBond kek a1 a2 valence)).map o.toSmiles
    if allow_bonds_between_rings = false ∧
        o.isInRing mol a1 = true ∧ o.isInRing mol a2 = true then none
    else
      match allowed_ring_sizes with
      | some sizes =>
        if o.shortestPathLen mol a1 a2 ∉ sizes then none else added
      | none => added

/-- Embeds `_bond_addition`: for each free-valence level (a key of the
free-valence map, `range(1, max valence)`) and each unordered pair of atoms
at that level, collect the surviving candidates. -/
def _bond_addition {G : Type} (o : Oracle G) (mol : G) (levels : List Nat)
    (allowed_ring_sizes : Option (Finset Nat)) (allow_bonds_between_rings : Bool) :
    Finset String :=
  levels.foldl (fun acc v =>
    (combos2 (freeValenceAtoms o mol v)).foldl (fun acc p =>
      addCandidate acc
        (additionCandidate o mol allowed_ring_sizes allow_bonds_between_rings v p.1 p.2)) acc) ∅

/-- One candidate of `_bond_removal` for decrement amount `valence` and the
bond between `b.1` and `b.2`.  The bond type is read from an un-kekulized
copy; the edit is applied to a kekulized copy.  Non-standard orders are
skipped.  If `order - valence > 0` the bond order is reduced, sanitized and
serialized.  If `order - valence == 0` the bond is removed, sanitized,
serialized; the serialization is split on the fragment delimiter `.` and the
pieces sorted by length ascending; the last (largest) piece is kept, but
only when there is exactly one piece or the first (smallest) piece has
length 1. -/
def removalCandidate {G : Type} (o : Oracle G) (mol : G) (b : Nat × Nat)
    (valence : Nat) : Option String :=
  match o.bondType mol b.1 b.2 with
  | none => none
  | some bt =>
    match stdOrder bt with
    | none => none
    | some ord =>
      let kek := o.kekulize mol
      if valence < ord then
        (o.sanitize (o.replaceBond kek b.1 b.2 (ord - valence))).map o.toSmiles
      else if valence = ord then
        match o.sanitize (o.removeBond kek b.1 b.2) with
        | none => none
        | some g =>
          let parts := sortFragsByLen (splitDot (o.toSmiles g))
          if parts.length = 1 ∨ parts.head?.map String.length = some 1 then
            parts.getLast?
          else none
      else none

/-- Embeds `_bond_removal`: for each decrement amount in `[1, 2, 3]` and each bond
of the graph, collect the surviving candidates. -/
def _bond_removal {G : Type} (o : Oracle G) (mol : G) : Finset String :=
  [1, 2, 3].foldl (fun acc v =>
    (o.bonds mol).foldl (fun acc b =>
      addCandidate acc (removalCandidate o mol b v)) acc) ∅

/-- Module-level `get_valid_actions`.  An empty/absent state short-circuits
to (a deep copy of) the atom-type labels, skipping parsing.  Otherwise the
state is parsed; on parse failure the code executes
`raise ValueError('Received invalid state: %s' & state)` — but `&` is not a
format operator on strings, so evaluating the argument raises
`TypeError: unsupported operand type(s) for &: 'str' and 'str'` before any
`ValueError` is constructed; that `TypeError` is what propagates.  On parse
success the four edit families are unioned.  `atom_types` is carried as a
list of labels; the Python set it stands for is `atom_types.toFinset`. -/
def get_valid_actions {G : Type} (o : Oracle G) (state : Option String)
    (atom_types : List String) (allow_removal : Bool)
    (allow_no_modification : Bool) (allowed_ring_sizes : Option (Finset Nat))
    (allow_bonds_between_rings : Bool) : Except PyError (Finset String) :=
  match state with
  | none => .ok atom_types.toFinset
  | some s =>
    if s.isEmpty then .ok atom_types.toFinset
    else
      match o.parse s with
      | none => .error (.typeError "unsupported operand type(s) for &: 'str' and 'str'")
      | some mol =>
        let maxv := (atom_types.map o.maxValence).foldr max 0
        let acc0 := _atom_addition o mol atom_types ∪
          _bond_addition o mol (List.range' 1 (maxv - 1)) allowed_ring_sizes
            allow_bonds_between_rings
        let acc1 := if allow_removal then acc0 ∪ _bond_removal o mol else acc0
        .ok (if allow_no_modification then insert (o.toSmiles mol) acc1 else acc1)

/-- The `Result` named tuple returned by `Molecule.step`. -/
structure Result where
  state : Option String
  reward : Rat
  terminated : Bool

/-- The `Molecule` MDP environment: configuration fields set by `__init__`
plus the mutable episode fields (`_state`, `_valid_actions`, `_counter`,
`_path`).  `atom_types` is carried as a list of labels; the cached action
space is a set of canonical strings (the initial Python value `[]` and an
empty set agree on both truthiness and membership, so both are `∅`).
`target_fn` receives the current (nullable) state. -/
structure Molecule (G : Type) where
  atom_types : List String
  init_mol : Option String
  allow_removal : Bool
  allow_no_modification : Bool
  allow_bonds_between_rings : Bool
  allowed_ring_sizes : Option (Finset Nat)
  max_steps : Nat
  target_fn : Option (Option String → Bool)
  record_path : Bool
  _state : Option String
  _valid_actions : Finset String
  _counter : Nat
  _path : List (Option String)
  _max_bonds : Nat
  _max_new_bonds : String → Nat

/-- Embeds `Molecule.__init__`: stores the configuration and sets `_state = None`,
`_valid_actions = []`, `_counter = max_steps`, `_path = []`,
`_max_bonds = 4` and the per-type valence dict.  (The `isinstance(init_mol,
Chem.Mol)` conversion is outside this embedding: the initial state arrives
already serialized.) -/
def Molecule.new {G : Type} (o : Oracle G) (atom_types : List String)
    (init_mol : Option String) (allow_removal : Bool)
    (allow_no_modification : Bool) (allow_bonds_between_rings : Bool)
    (allowed_ring_sizes : Option (Finset Nat)) (max_steps : Nat)
    (target_fn : Option (Option String → Bool)) (record_path : Bool) :
    Molecule G :=
  { atom_types := atom_types
    init_mol := init_mol
    allow_removal := allow_removal
    allow_no_modification := allow_no_modification
    allow_bonds_between_rings := allow_bonds_between_rings
    allowed_ring_sizes := allowed_ring_sizes
    max_steps := max_steps
    target_fn := target_fn
    record_path := record_path
    _state := none
    _valid_actions := ∅
    _counter := max_steps
    _path := []
    _max_bonds := 4
    _max_new_bonds := fun t => o.maxValence t }

/-- The `state` read-only property. -/
def Molecule.state {G : Type} (m : Molecule G) : Option String := m._state

/-- The `num_steps_taken` read-only property. -/
def Molecule.num_steps_taken {G : Type} (m : Molecule G) : Nat := m._counter

/-- Embeds `Molecule.get_path`. -/
def Molecule.get_path {G : Type} (m : Molecule G) : List (Option String) :=
  m._path

/-- The common tail of `Molecule.get_valid_actions`: call the module-level
enumeration on `st` with the stored configuration, assign the result to
`self._valid_actions`, and return (a deep copy of) it; a raised error leaves
the object untouched. -/
def Molecule.rebuildActions {G : Type} (o : Oracle G) (m : Molecule G)
    (st : Option String) : Except PyError (Finset String) × Molecule G :=
  match get_valid_actions o st m.atom_types m.allow_removal
      m.allow_no_modification m.allowed_ring_sizes m.allow_bonds_between_rings with
  | .error e => (.error e, m)
  | .ok va => (.ok va, { m with _valid_actions := va })

/-- Embeds `Molecule.get_valid_actions(state=None, force_rebuild=False)`: with no
explicit state, a non-empty cache is returned as-is unless a rebuild is
forced; otherwise (and always with an explicit state) the action space is
recomputed for the chosen state and cached. -/
def Molecule.get_valid_actions {G : Type} (o : Oracle G) (m : Molecule G)
    (stateArg : Option String) (force_rebuild : Bool) :
    Except PyError (Finset String) × Molecule G :=
  match stateArg with
  | none =>
    if m._valid_actions ≠ ∅ ∧ force_rebuild = false then (.ok m._valid_actions, m)
    else Molecule.rebuildActions o m m._state
  | some s => Molecule.rebuildActions o m (some s)

/-- Embeds `Molecule._reward`: the default reward hook, constantly `0.0`. -/
def Molecule._reward {G : Type} (_m : Molecule G) : Rat := 0

/-- The goal predicate applied to a (nullable) state: false when no
`target_fn` was supplied. -/
def goalOn (t : Option (Option String → Bool)) (s : Option String) : Bool :=
  match t with
  | none => false
  | some f => f s

/-- Embeds `Molecule._goal_reached`. -/
def Molecule._goal_reached {G : Type} (m : Molecule G) : Bool :=
  goalOn m.target_fn m._state

/-- The first two mutations of `Molecule.initialize`: set `_state` to
`init_mol` and seed the path with the initial state when recording. -/
def resetCommit {G : Type} (m : Molecule G) : Molecule G :=
  { m with
    _state := m.init_mol
    _path := if m.record_path then [m.init_mol] else m._path }

/-- Embeds `Molecule.initialize` (named `reset` here because that is a
reserved command name in Lean): set `_state` to `init_mol`, seed the path
with the initial state when recording, eagerly rebuild the action-space
cache, and zero the step counter.  An enumeration error propagates, leaving
the counter unset (the partial mutations made before the raise persist). -/
def Molecule.reset {G : Type} (o : Oracle G) (m : Molecule G) :
    Except PyError Unit × Molecule G :=
  match Molecule.get_valid_actions o (resetCommit m) none true with
  | (.error e, m2) => (.error e, m2)
  | (.ok va, m2) => (.ok (), { m2 with _valid_actions := va, _counter := 0 })

/-- The first two mutations of a successful `Molecule.step`: commit the
action as the new state and append it to the path when recording. -/
def stepCommit {G : Type} (m : Molecule G) (action : String) : Molecule G :=
  { m with
    _state := some action
    _path := if m.record_path then m._path ++ [some action] else m._path }

/-- Embeds `Molecule.step`: raise the episode-terminated error when the counter has
reached `max_steps` or the goal already holds (before looking at the
action); raise the invalid-action error when the action is not in the
cached action space; otherwise commit the action as the new state, append
it to the path when recording, rebuild the action space for it, increment
the counter, and return the `Result` triple. -/
def Molecule.step {G : Type} (o : Oracle G) (m : Molecule G) (action : String) :
    Except PyError Result × Molecule G :=
  if m.max_steps ≤ m._counter ∨ m._goal_reached = true then
    (.error EpisodeTerminatedError, m)
  else if action ∉ m._valid_actions then
    (.error InvalidActionError, m)
  else
    match Molecule.get_valid_actions o (stepCommit m action) none true with
    | (.error e, m2) => (.error e, m2)
    | (.ok va, m2) =>
      let m3 := { m2 with _valid_actions := va, _counter := m2._counter + 1 }
      (.ok { state := m3._state, reward := m3._reward,
             terminated := decide (m3.max_steps ≤ m3._counter) || m3._goal_reached },
       m3)

/-- A sequence of `step` calls, each of which must succeed. -/
def runSteps {G : Type} (o : Oracle G) (m : Molecule G) :
    List String → Option (Molecule G)
  | [] => some m
  | a :: as =>
    match Molecule.step o m a with
    | (.ok _, m') => runSteps o m' as
    | (.error _, _) => none

/-- A minimal concrete Oracle over the unit graph: parsing always succeeds,
the graph has no atoms and no bonds, and every edit is the identity.  Used
to instantiate the universally quantified theorems on concrete inputs. -/
def trivOracle : Oracle Unit :=
  { parse := fun _ => some ()
    toSmiles := fun _ => "C"
    sanitize := fun g => some g
    kekulize := fun g => g
    atoms := fun _ => []
    numImplicitHs := fun _ _ => 0
    isInRing := fun _ _ => false
    shortestPathLen := fun _ _ _ => 0
    bonds := fun _ => []
    bondType := fun _ _ _ => none
    addAtomBond := fun g _ _ _ => g
    addBond := fun g _ _ _ => g
    replaceBond := fun g _ _ _ => g
    removeBond := fun g _ _ => g
    maxValence := fun _ => 4 }

/-- An Oracle whose parser rejects every state. -/
def noParseOracle : Oracle Unit := { trivOracle with parse := fun _ => none }

/-- An Oracle with a single bond whose removal serializes to two fragments
`CC` and `O` (the smaller being a single atom). -/
def c1Oracle : Oracle Unit :=
  { trivOracle with
    bondType := fun _ _ _ => some .single
    toSmiles := fun _ => "CC.O" }

/-- An Oracle with no bond between atoms and shortest-path length 5. -/
def c3Oracle : Oracle Unit :=
  { trivOracle with shortestPathLen := fun _ _ _ => 5 }

/-- Concrete environment: one atom type, empty initial molecule, three
steps, path recording on. -/
def mW : Molecule Unit :=
  Molecule.new trivOracle ["C"] none true true true none 3 none true

/-- The environment `mW` right after `initialize()`. -/
def m0W : Molecule Unit := (Molecule.reset trivOracle mW).2

/-- The environment `m0W` after one successful step on action `C`. -/
def mkW : Molecule Unit := (Molecule.step trivOracle m0W "C").2

theorem head?_mem {α : Type} {l : List α} {a : α} (h : l.head? = some a) : a ∈ l := by
  cases l with
  | nil => cases h
  | cons x xs =>
    simp only [List.head?_cons, Option.some.injEq] at h
    exact h ▸ List.mem_cons_self _ _

theorem getLast?_mem {α : Type} {l : List α} {a : α} (h : l.getLast? = some a) :
    a ∈ l := by
  rcases List.mem_getLast?_eq_getLast (l := l) (x := a) h with ⟨h1, h2⟩
  exact h2 ▸ List.getLast_mem h1

theorem sorted_head?_le {l : List String} (h : List.Sorted lenLe l) {b : String}
    (hb : l.head? = some b) : ∀ a ∈ l, lenLe b a := by
  cases l with
  | nil => cases hb
  | cons x xs =>
    cases hb
    intro a ha
    cases ha with
    | head => exact Nat.le_refl _
    | tail _ ha => exact List.rel_of_sorted_cons h a ha

theorem sorted_le_getLast? {l : List String} :
    List.Sorted lenLe l → ∀ {b : String}, l.getLast? = some b → ∀ a ∈ l, lenLe a b := by
  induction l with
  | nil => intro _ b hb; cases hb
  | cons x xs ih =>
    intro h b hb a ha
    cases xs with
    | nil =>
      cases hb
      cases ha with
      | head => exact Nat.le_refl _
      | tail _ ha2 => cases ha2
    | cons y ys =>
      rw [List.getLast?_cons_cons] at hb
      cases ha with
      | head => exact List.rel_of_sorted_cons h b (getLast?_mem hb)
      | tail _ ha2 => exact ih h.of_cons hb a ha2

/-- Claim C1: in bond removal, when decrementing an existing bond's order by
the chosen amount yields exactly 0, the enumerator removes the bond,
sanitizes, canonicalizes, splits the canonical serialization on the
fragment delimiter, sorts fragments by length ascending, and adds only the
single largest fragment to the action space, and does so only if there is
exactly one fragment or the smallest fragment is a single atom (a
length-one serialization); a removal splitting the graph into fragments all
larger than a single atom produces no action.  Stated over every Oracle,
graph, bond and decrement amount whose standard order equals the amount and
whose bond removal sanitizes successfully. -/
theorem claim_C1_bond_removal_fragment_rule {G : Type} (o : Oracle G) (mol : G)
    (b : Nat × Nat) (v : Nat) (bt : BondType) (g : G)
    (hbt : o.bondType mol b.1 b.2 = some bt)
    (hord : stdOrder bt = some v)
    (hsan : o.sanitize (o.removeBond (o.kekulize mol) b.1 b.2) = some g) :
    (∀ a, removalCandidate o mol b v = some a →
      a ∈ splitDot (o.toSmiles g) ∧
      ∀ f ∈ splitDot (o.toSmiles g), f.length ≤ a.length) ∧
    (removalCandidate o mol b v = none ↔
      ¬((splitDot (o.toSmiles g)).length = 1 ∨
        ∃ f ∈ splitDot (o.toSmiles g), f.length = 1 ∧
          ∀ f2 ∈ splitDot (o.toSmiles g), f.length ≤ f2.length)) ∧
    (2 ≤ (splitDot (o.toSmiles g)).length →
      (∀ f ∈ splitDot (o.toSmiles g), 2 ≤ f.length) →
      removalCandidate o mol b v = none) := by
  have hc : removalCandidate o mol b v =
      if (sortFragsByLen (splitDot (o.toSmiles g))).length = 1 ∨
          (sortFragsByLen (splitDot (o.toSmiles g))).head?.map String.length = some 1 then
        (sortFragsByLen (splitDot (o.toSmiles g))).getLast?
      else none := by
    unfold removalCandidate
    simp only [hbt, hord, hsan]
    rw [if_neg (Nat.lt_irrefl v)]
    simp
  set frags := splitDot (o.toSmiles g) with hfr
  set parts := sortFragsByLen frags with hp
  have hperm : List.Perm parts frags := List.perm_insertionSort lenLe frags
  have hsorted : List.Sorted lenLe parts := List.sorted_insertionSort lenLe frags
  have hlen : parts.length = frags.length := hperm.length_eq
  have hmemp : ∀ x, x ∈ parts ↔ x ∈ frags := fun _ => hperm.mem_iff
  have hcond : (parts.length = 1 ∨ parts.head?.map String.length = some 1) ↔
      (frags.length = 1 ∨ ∃ f ∈ frags, f.length = 1 ∧
        ∀ f2 ∈ frags, f.length ≤ f2.length) := by
    constructor
    · rintro (h1 | h2)
      · exact Or.inl (hlen.symm.trans h1)
      · right
        cases hh : parts.head? with
        | none => rw [hh] at h2; cases h2
        | some hd =>
          rw [hh] at h2
          simp at h2
          refine ⟨hd, (hmemp hd).1 (head?_mem hh), h2, ?_⟩
          intro f2 hf2
          exact sorted_head?_le hsorted hh f2 ((hmemp f2).2 hf2)
    · rintro (h1 | ⟨f, hf, hf1, hmin⟩)
      · exact Or.inl (hlen.trans h1)
      · right
        have hfp : f ∈ parts := (hmemp f).2 hf
        cases hhp : parts.head? with
        | none =>
          rw [List.head?_eq_none_iff] at hhp
          rw [hhp] at hfp
          cases hfp
        | some hd =>
          have h1' : lenLe hd f := sorted_head?_le hsorted hhp f hfp
          have h2' : f.length ≤ hd.length := hmin hd ((hmemp hd).1 (head?_mem hhp))
          have hdl : hd.length = 1 := by
            unfold lenLe at h1'
            omega
          simp [hhp, hdl]
  refine ⟨?_, ?_, ?_⟩
  · intro a ha
    rw [hc] at ha
    by_cases hcc : parts.length = 1 ∨ parts.head?.map String.length = some 1
    · rw [if_pos hcc] at ha
      exact ⟨(hmemp a).1 (getLast?_mem ha),
        fun f hf => sorted_le_getLast? hsorted ha f ((hmemp f).2 hf)⟩
    · rw [if_neg hcc] at ha
      cases ha
  · rw [hc]
    by_cases hcc : parts.length = 1 ∨ parts.head?.map String.length = some 1
    · rw [if_pos hcc]
      have hne : parts ≠ [] := by
        intro hnil
        rcases hcc with h1 | h2
        · rw [hnil] at h1; cases h1
        · rw [hnil] at h2; cases h2
      constructor
      · intro hn
        rw [List.getLast?_eq_none_iff] at hn
        exact absurd hn hne
      · intro hnc
        exact absurd (hcond.1 hcc) hnc
    · rw [if_neg hcc]
      exact ⟨fun _ hclaim => hcc (hcond.2 hclaim), fun _ => rfl⟩
  · intro h2 hall
    rw [hc, if_neg]
    intro hcc
    rcases hcond.1 hcc with h1 | ⟨f, hf, hf1, _⟩
    · omega
    · have := hall f hf
      omega

/-- Witness for claim C1 at a concrete input: a single bond whose removal
yields the fragments `CC` and `O`; the smaller fragment is a single atom,
so only the larger fragment `CC` survives. -/
theorem claim_C1_witness :
    (c1Oracle.bondType () (0, 1).1 (0, 1).2 = some BondType.single ∧
     stdOrder BondType.single = some 1 ∧
     c1Oracle.sanitize (c1Oracle.removeBond (c1Oracle.kekulize ()) (0, 1).1 (0, 1).2) =
       some ()) ∧
    ((∀ a, removalCandidate c1Oracle () (0, 1) 1 = some a →
      a ∈ splitDot (c1Oracle.toSmiles ()) ∧
      ∀ f ∈ splitDot (c1Oracle.toSmiles ()), f.length ≤ a.length) ∧
    (removalCandidate c1Oracle () (0, 1) 1 = none ↔
      ¬((splitDot (c1Oracle.toSmiles ())).length = 1 ∨
        ∃ f ∈ splitDot (c1Oracle.toSmiles ()), f.length = 1 ∧
          ∀ f2 ∈ splitDot (c1Oracle.toSmiles ()), f.length ≤ f2.length)) ∧
    (2 ≤ (splitDot (c1Oracle.toSmiles ())).length →
      (∀ f ∈ splitDot (c1Oracle.toSmiles ()), 2 ≤ f.length) →
      removalCandidate c1Oracle () (0, 1) 1 = none)) :=
  ⟨⟨rfl, rfl, rfl⟩,
   claim_C1_bond_removal_fragment_rule c1Oracle () (0, 1) 1 BondType.single () rfl rfl rfl⟩

/-- Claim C2 (code bug): for a non-empty state the Oracle fails to parse,
`get_valid_actions` does NOT raise the intended
`ValueError('Received invalid state: %s' % state)`: line 33 of
`mol_env.py` uses `&` in place of `%`, so evaluating the argument
expression raises `TypeError: unsupported operand type(s) for &` before the
`ValueError` is built.  The error that propagates is a `TypeError`, never a
`ValueError`, contradicting the claim that an `InvalidStateError`
(a `ValueError` carrying the state) is raised. -/
theorem claim_C2_parse_failure_raises_typeerror {G : Type} (o : Oracle G)
    (s : String) (ats : List String) (ar anm abbr : Bool)
    (ars : Option (Finset Nat))
    (hne : s.isEmpty = false) (hparse : o.parse s = none) :
    get_valid_actions o (some s) ats ar anm ars abbr =
      .error (.typeError "unsupported operand type(s) for &: 'str' and 'str'") ∧
    ∀ msg, get_valid_actions o (some s) ats ar anm ars abbr ≠
      .error (.valueError msg) := by
  have h : get_valid_actions o (some s) ats ar anm ars abbr =
      .error (.typeError "unsupported operand type(s) for &: 'str' and 'str'") := by
    simp only [get_valid_actions, hne, Bool.false_eq_true, if_false, hparse]
  refine ⟨h, ?_⟩
  intro msg hmsg
  rw [h] at hmsg
  simp at hmsg

/-- Witness for claim C2 at a concrete input: the all-rejecting parser on
the non-empty state `XX`. -/
theorem claim_C2_witness :
    ("XX".isEmpty = false ∧ noParseOracle.parse "XX" = none) ∧
    (get_valid_actions noParseOracle (some "XX") ["C"] true true none true =
      .error (.typeError "unsupported operand type(s) for &: 'str' and 'str'") ∧
    ∀ msg, get_valid_actions noParseOracle (some "XX") ["C"] true true none true ≠
      .error (.valueError msg)) :=
  ⟨⟨rfl, rfl⟩,
   claim_C2_parse_failure_raises_typeerror noParseOracle "XX" ["C"] true true true none
     rfl rfl⟩

/-- Claim C3: in bond addition, for a pair of atoms with no existing bond,
the pair is skipped when bonds between rings are disallowed and both atoms
are ring members; it is skipped when a ring-size whitelist is set and the
shortest-path length between the atoms is not in it; otherwise a new bond
of order `v` is added (then sanitized).  Consequently, with whitelist
`{5, 6}` and `allow_bonds_between_rings = false`, an accepted candidate
never joins two ring atoms and always closes a ring of size 5 or 6. -/
theorem claim_C3_bond_addition_constraints {G : Type} (o : Oracle G) (mol : G)
    (ars : Option (Finset Nat)) (abbr : Bool) (v a1 a2 : Nat)
    (hnb : o.bondType mol a1 a2 = none) :
    (abbr = false → o.isInRing mol a1 = true → o.isInRing mol a2 = true →
      additionCandidate o mol ars abbr v a1 a2 = none) ∧
    (∀ sizes, ars = some sizes → o.shortestPathLen mol a1 a2 ∉ sizes →
      additionCandidate o mol ars abbr v a1 a2 = none) ∧
    (¬(abbr = false ∧ o.isInRing mol a1 = true ∧ o.isInRing mol a2 = true) →
      ¬(∃ sizes, ars = some sizes ∧ o.shortestPathLen mol a1 a2 ∉ sizes) →
      additionCandidate o mol ars abbr v a1 a2 =
        (o.sanitize (o.addBond (o.kekulize mol) a1 a2 v)).map o.toSmiles) ∧
    (ars = some {5, 6} → abbr = false →
      ∀ s, additionCandidate o mol ars abbr v a1 a2 = some s →
        ¬(o.isInRing mol a1 = true ∧ o.isInRing mol a2 = true) ∧
        o.shortestPathLen mol a1 a2 ∈ ({5, 6} : Finset Nat)) := by
  have hc : additionCandidate o mol ars abbr v a1 a2 =
      if abbr = false ∧ o.isInRing mol a1 = true ∧ o.isInRing mol a2 = true then none
      else
        match ars with
        | some sizes =>
          if o.shortestPathLen mol a1 a2 ∉ sizes then none
          else (o.sanitize (o.addBond (o.kekulize mol) a1 a2 v)).map o.toSmiles
        | none => (o.sanitize (o.addBond (o.kekulize mol) a1 a2 v)).map o.toSmiles := by
    unfold additionCandidate
    simp only [hnb]
  refine ⟨?_, ?_, ?_, ?_⟩
  · intro h1 h2 h3
    rw [hc, if_pos ⟨h1, h2, h3⟩]
  · intro sizes hs hnot
    rw [hc]
    by_cases hring : abbr = false ∧ o.isInRing mol a1 = true ∧ o.isInRing mol a2 = true
    · rw [if_pos hring]
    · rw [if_neg hring, hs]
      simp only [if_pos hnot]
  · intro hnr hnsz
    rw [hc, if_neg hnr]
    cases hars : ars with
    | none => rfl
    | some sizes =>
      simp only []
      rw [if_neg (fun hmem => hnsz ⟨sizes, hars, hmem⟩)]
  · intro h56 hf s hs
    rw [hc] at hs
    by_cases hring : abbr = false ∧ o.isInRing mol a1 = true ∧ o.isInRing mol a2 = true
    · rw [if_pos hring] at hs
      cases hs
    · rw [if_neg hring, h56] at hs
      have hs2 : (if o.shortestPathLen mol a1 a2 ∉ ({5, 6} : Finset Nat) then none
          else Option.map o.toSmiles (o.sanitize (o.addBond (o.kekulize mol) a1 a2 v))) =
          some s := hs
      by_cases hpath : o.shortestPathLen mol a1 a2 ∉ ({5, 6} : Finset Nat)
      · rw [if_pos hpath] at hs2
        cases hs2
      · exact ⟨fun hboth => hring ⟨hf, hboth.1, hboth.2⟩, not_not.1 hpath⟩

/-- Witness for claim C3 at a concrete input: no bond between atoms 0 and 1,
no ring membership, shortest-path length 5, whitelist `{5, 6}` and
`allow_bonds_between_rings = false`. -/
theorem claim_C3_witness :
    (c3Oracle.bondType () 0 1 = none) ∧
    ((c3Oracle.isInRing () 0 = true → c3Oracle.isInRing () 1 = true → False = true →
      True) ∧
     additionCandidate c3Oracle () (some {5, 6}) false 1 0 1 =
       (c3Oracle.sanitize (c3Oracle.addBond (c3Oracle.kekulize ()) 0 1 1)).map
         c3Oracle.toSmiles ∧
     (∀ s, additionCandidate c3Oracle () (some {5, 6}) false 1 0 1 = some s →
        ¬(c3Oracle.isInRing () 0 = true ∧ c3Oracle.isInRing () 1 = true) ∧
        c3Oracle.shortestPathLen () 0 1 ∈ ({5, 6} : Finset Nat))) :=
  ⟨rfl,
   ⟨fun _ _ _ => trivial,
    (claim_C3_bond_addition_constraints c3Oracle () (some {5, 6}) false 1 0 1 rfl).2.2.1
      (by simp [c3Oracle, trivOracle])
      (by
        rintro ⟨sizes, hsz, hmem⟩
        cases hsz
        exact hmem (by decide)),
    fun s hs =>
      (claim_C3_bond_addition_constraints c3Oracle () (some {5, 6}) false 1 0 1 rfl).2.2.2
        rfl rfl s hs⟩⟩

theorem rebuild_frame {G : Type} (o : Oracle G) (m : Molecule G)
    (st : Option String) (res : Except PyError (Finset String)) (m2 : Molecule G)
    (h : Molecule.rebuildActions o m st = (res, m2)) :
    m2._state = m._state ∧ m2._path = m._path ∧ m2._counter = m._counter ∧
    m2.record_path = m.record_path ∧ m2.init_mol = m.init_mol ∧
    m2.max_steps = m.max_steps ∧ m2.atom_types = m.atom_types ∧
    m2.target_fn = m.target_fn := by
  cases hg : get_valid_actions o st m.atom_types m.allow_removal
      m.allow_no_modification m.allowed_ring_sizes m.allow_bonds_between_rings with
  | error e =>
    have h2 : ((.error e : Except PyError (Finset String)), m) = (res, m2) := by
      rw [← h]
      simp [Molecule.rebuildActions, hg]
    cases h2
    exact ⟨rfl, rfl, rfl, rfl, rfl, rfl, rfl, rfl⟩
  | ok va =>
    have h2 : ((.ok va : Except PyError (Finset String)),
        ({ m with _valid_actions := va } : Molecule G)) = (res, m2) := by
      rw [← h]
      simp [Molecule.rebuildActions, hg]
    cases h2
    exact ⟨rfl, rfl, rfl, rfl, rfl, rfl, rfl, rfl⟩

theorem gva_frame {G : Type} (o : Oracle G) (m : Molecule G) (sa : Option String)
    (force : Bool) (res : Except PyError (Finset String)) (m2 : Molecule G)
    (h : Molecule.get_valid_actions o m sa force = (res, m2)) :
    m2._state = m._state ∧ m2._path = m._path ∧ m2._counter = m._counter ∧
    m2.record_path = m.record_path ∧ m2.init_mol = m.init_mol ∧
    m2.max_steps = m.max_steps ∧ m2.atom_types = m.atom_types ∧
    m2.target_fn = m.target_fn := by
  rcases sa with _ | s
  · by_cases hc : m._valid_actions ≠ ∅ ∧ force = false
    · have h2 : ((.ok m._valid_actions : Except PyError (Finset String)), m) =
          (res, m2) := by
        rw [← h]
        simp only [Molecule.get_valid_actions, if_pos hc]
      cases h2
      exact ⟨rfl, rfl, rfl, rfl, rfl, rfl, rfl, rfl⟩
    · have h2 : Molecule.rebuildActions o m m._state = (res, m2) := by
        rw [← h]
        simp only [Molecule.get_valid_actions, if_neg hc]
      exact rebuild_frame o m m._state res m2 h2
  · have h2 : Molecule.rebuildActions o m (some s) = (res, m2) := by
      rw [← h]
      simp only [Molecule.get_valid_actions]
    exact rebuild_frame o m (some s) res m2 h2

theorem gva_force_rebuild {G : Type} (o : Oracle G) (m : Molecule G)
    (va : Finset String)
    (hok : get_valid_actions o m._state m.atom_types m.allow_removal
      m.allow_no_modification m.allowed_ring_sizes m.allow_bonds_between_rings =
      .ok va) :
    Molecule.get_valid_actions o m none true =
      (.ok va, { m with _valid_actions := va }) := by
  simp only [Molecule.get_valid_actions, Molecule.rebuildActions]
  rw [if_neg (by simp), hok]

theorem module_error_is_typeerror {G : Type} (o : Oracle G) (st : Option String)
    (ats : List String) (ar anm abbr : Bool) (ars : Option (Finset Nat))
    (e : PyError) (h : get_valid_actions o st ats ar anm ars abbr = .error e) :
    e = .typeError "unsupported operand type(s) for &: 'str' and 'str'" := by
  rcases st with _ | s
  · simp [get_valid_actions] at h
  · by_cases hemp : s.isEmpty = true
    · simp [get_valid_actions, hemp] at h
    · cases hp : o.parse s with
      | none =>
        have h2 : (Except.error
            (PyError.typeError "unsupported operand type(s) for &: 'str' and 'str'") :
            Except PyError (Finset String)) = .error e := by
          rw [← h]
          simp [get_valid_actions, hemp, hp]
        cases h2
        rfl
      | some mol =>
        simp [get_valid_actions, hemp, hp] at h

theorem rebuild_error_is_typeerror {G : Type} (o : Oracle G) (m : Molecule G)
    (st : Option String) (e : PyError) (m2 : Molecule G)
    (h : Molecule.rebuildActions o m st = (.error e, m2)) :
    e = .typeError "unsupported operand type(s) for &: 'str' and 'str'" := by
  cases hg : get_valid_actions o st m.atom_types m.allow_removal
      m.allow_no_modification m.allowed_ring_sizes m.allow_bonds_between_rings with
  | error e0 =>
    have h2 : ((.error e0 : Except PyError (Finset String)), m) = (.error e, m2) := by
      rw [← h]
      simp [Molecule.rebuildActions, hg]
    have he : e0 = e := by
      cases h2
      rfl
    exact he ▸ module_error_is_typeerror o st _ _ _ _ _ _ hg
  | ok va =>
    have h2 : ((.ok va : Except PyError (Finset String)),
        ({ m with _valid_actions := va } : Molecule G)) = (.error e, m2) := by
      rw [← h]
      simp [Molecule.rebuildActions, hg]
    simp at h2

theorem mgva_error_is_typeerror {G : Type} (o : Oracle G) (m : Molecule G)
    (sa : Option String) (force : Bool) (e : PyError) (m2 : Molecule G)
    (h : Molecule.get_valid_actions o m sa force = (.error e, m2)) :
    e = .typeError "unsupported operand type(s) for &: 'str' and 'str'" := by
  rcases sa with _ | s
  · by_cases hc : m._valid_actions ≠ ∅ ∧ force = false
    · have h2 : ((.ok m._valid_actions : Except PyError (Finset String)), m) =
          (.error e, m2) := by
        rw [← h]
        simp only [Molecule.get_valid_actions, if_pos hc]
      simp at h2
    · have h2 : Molecule.rebuildActions o m m._state = (.error e, m2) := by
        rw [← h]
        simp only [Molecule.get_valid_actions, if_neg hc]
      exact rebuild_error_is_typeerror o m m._state e m2 h2
  · have h2 : Molecule.rebuildActions o m (some s) = (.error e, m2) := by
      rw [← h]
      simp only [Molecule.get_valid_actions]
    exact rebuild_error_is_typeerror o m (some s) e m2 h2

/-- Claim C4: on an active, non-terminated episode, a `step` with an action
outside the cached action space fails with the invalid-action error and
leaves the state, the step counter, the action-space cache and the path
history unchanged. -/
theorem claim_C4_invalid_action_atomic {G : Type} (o : Oracle G)
    (m : Molecule G) (a : String)
    (hterm : ¬(m.max_steps ≤ m._counter ∨ m._goal_reached = true))
    (hmem : a ∉ m._valid_actions) :
    (Molecule.step o m a).1 = .error InvalidActionError ∧
    (Molecule.step o m a).2._state = m._state ∧
    (Molecule.step o m a).2._counter = m._counter ∧
    (Molecule.step o m a).2._valid_actions = m._valid_actions ∧
    (Molecule.step o m a).2._path = m._path := by
  have h : Molecule.step o m a = (.error InvalidActionError, m) := by
    unfold Molecule.step
    rw [if_neg hterm, if_pos hmem]
  rw [h]
  exact ⟨rfl, rfl, rfl, rfl, rfl⟩

/-- Witness for claim C4 on a concrete just-initialized environment and the
out-of-space action `X`. -/
theorem claim_C4_witness :
    (¬(m0W.max_steps ≤ m0W._counter ∨ m0W._goal_reached = true) ∧
     "X" ∉ m0W._valid_actions) ∧
    ((Molecule.step trivOracle m0W "X").1 = .error InvalidActionError ∧
     (Molecule.step trivOracle m0W "X").2._state = m0W._state ∧
     (Molecule.step trivOracle m0W "X").2._counter = m0W._counter ∧
     (Molecule.step trivOracle m0W "X").2._valid_actions = m0W._valid_actions ∧
     (Molecule.step trivOracle m0W "X").2._path = m0W._path) :=
  ⟨⟨by decide, by decide⟩,
   claim_C4_invalid_action_atomic trivOracle m0W "X" (by decide) (by decide)⟩

/-- Claim C5: termination is sticky.  Whenever the counter has reached
`max_steps` or the goal predicate holds, every `step` fails with the
episode-terminated error and leaves the environment unchanged, so any
sequence of further `step` calls leaves it unchanged as well (and each of
them keeps failing) — until `initialize()` resets the counter. -/
theorem claim_C5_termination_sticky {G : Type} (o : Oracle G) (m : Molecule G)
    (hterm : m.max_steps ≤ m._counter ∨ m._goal_reached = true) :
    (∀ a, (Molecule.step o m a).1 = .error EpisodeTerminatedError ∧
      (Molecule.step o m a).2 = m) ∧
    ∀ as : List String, as.foldl (fun s a => (Molecule.step o s a).2) m = m := by
  have h : ∀ a, Molecule.step o m a = (.error EpisodeTerminatedError, m) := by
    intro a
    unfold Molecule.step
    rw [if_pos hterm]
  refine ⟨fun a => by rw [h a]; exact ⟨rfl, rfl⟩, ?_⟩
  intro as
  induction as with
  | nil => rfl
  | cons a as ih =>
    rw [List.foldl_cons]
    simp only [h a]
    exact ih

/-- Witness for claim C5 on a concrete terminated environment (a fresh one,
whose counter equals `max_steps`). -/
theorem claim_C5_witness :
    (mW.max_steps ≤ mW._counter ∨ mW._goal_reached = true) ∧
    ((∀ a, (Molecule.step trivOracle mW a).1 = .error EpisodeTerminatedError ∧
      (Molecule.step trivOracle mW a).2 = mW) ∧
    ∀ as : List String, as.foldl (fun s a => (Molecule.step trivOracle s a).2) mW = mW) :=
  ⟨by decide, claim_C5_termination_sticky trivOracle mW (by decide)⟩

/-- Claim C9: a freshly constructed environment has its step counter equal
to `max_steps` (not 0), `num_steps_taken` returns `max_steps`, and every
`step` call fails with the episode-terminated error, leaving the
environment unchanged — indistinguishable from a terminated episode. -/
theorem claim_C9_fresh_env_terminated {G : Type} (o : Oracle G)
    (ats : List String) (im : Option String) (ar anm abbr : Bool)
    (ars : Option (Finset Nat)) (ms : Nat)
    (tf : Option (Option String → Bool)) (rp : Bool) (a : String) :
    Molecule.num_steps_taken (Molecule.new o ats im ar anm abbr ars ms tf rp) = ms ∧
    (Molecule.step o (Molecule.new o ats im ar anm abbr ars ms tf rp) a).1 =
      .error EpisodeTerminatedError ∧
    (Molecule.step o (Molecule.new o ats im ar anm abbr ars ms tf rp) a).2 =
      Molecule.new o ats im ar anm abbr ars ms tf rp := by
  have hcond : (Molecule.new o ats im ar anm abbr ars ms tf rp).max_steps ≤
      (Molecule.new o ats im ar anm abbr ars ms tf rp)._counter ∨
      (Molecule.new o ats im ar anm abbr ars ms tf rp)._goal_reached = true :=
    Or.inl (Nat.le_refl ms)
  have h : Molecule.step o (Molecule.new o ats im ar anm abbr ars ms tf rp) a =
      (.error EpisodeTerminatedError, Molecule.new o ats im ar anm abbr ars ms tf rp) := by
    unfold Molecule.step
    rw [if_pos hcond]
  exact ⟨rfl, by rw [h], by rw [h]⟩

/-- Claim C7: an empty or absent state short-circuits `get_valid_actions`
to exactly the set of atom-type labels — for every Oracle, parsing included
ones that reject everything, so no parsing happens; and `initialize()` with
`init_mol = None` yields `num_steps_taken = 0` and an action-space cache
equal to the atom-type set. -/
theorem claim_C7_empty_state_atom_types {G : Type} (o : Oracle G)
    (ats : List String) (ar anm abbr : Bool) (ars : Option (Finset Nat))
    (ms : Nat) (tf : Option (Option String → Bool)) (rp : Bool) :
    get_valid_actions o none ats ar anm ars abbr = .ok ats.toFinset ∧
    get_valid_actions o (some "") ats ar anm ars abbr = .ok ats.toFinset ∧
    (Molecule.reset o (Molecule.new o ats none ar anm abbr ars ms tf rp)).1 = .ok () ∧
    Molecule.num_steps_taken
      (Molecule.reset o (Molecule.new o ats none ar anm abbr ars ms tf rp)).2 = 0 ∧
    (Molecule.reset o (Molecule.new o ats none ar anm abbr ars ms tf rp)).2._valid_actions =
      ats.toFinset := by
  exact ⟨rfl, rfl, rfl, rfl, rfl⟩

/-- Claim C6: a successful `step` commits the action as the new state,
appends it to the path exactly when recording is enabled, replaces the
action-space cache by the enumeration for the new state, increments the
counter by one, and returns `(state, reward, terminated)` with the new
state, reward `0` (the default hook), and `terminated` true iff the
incremented counter has reached `max_steps` or the goal holds on the new
state. -/
theorem claim_C6_successful_step {G : Type} (o : Oracle G) (m : Molecule G)
    (a : String) (va : Finset String)
    (hterm : ¬(m.max_steps ≤ m._counter ∨ m._goal_reached = true))
    (hmem : a ∈ m._valid_actions)
    (hok : get_valid_actions o (some a) m.atom_types m.allow_removal
      m.allow_no_modification m.allowed_ring_sizes m.allow_bonds_between_rings =
      .ok va) :
    (Molecule.step o m a).1 = .ok
      { state := some a, reward := 0,
        terminated := decide (m.max_steps ≤ m._counter + 1) ||
          goalOn m.target_fn (some a) } ∧
    (Molecule.step o m a).2._state = some a ∧
    (Molecule.step o m a).2._counter = m._counter + 1 ∧
    (Molecule.step o m a).2._valid_actions = va ∧
    (Molecule.step o m a).2._path =
      (if m.record_path = true then m._path ++ [some a] else m._path) ∧
    ((Molecule.step o m a).1.map Result.terminated = .ok true ↔
      (m.max_steps ≤ m._counter + 1 ∨ goalOn m.target_fn (some a) = true)) := by
  have hgva : Molecule.get_valid_actions o (stepCommit m a) none true =
      (.ok va, { stepCommit m a with _valid_actions := va }) :=
    gva_force_rebuild o (stepCommit m a) va hok
  have hstep : Molecule.step o m a =
      (.ok { state := some a, reward := 0,
             terminated := decide (m.max_steps ≤ m._counter + 1) ||
               goalOn m.target_fn (some a) },
       { stepCommit m a with _valid_actions := va, _counter := m._counter + 1 }) := by
    simp only [Molecule.step]
    rw [if_neg hterm, if_neg (fun h => h hmem), hgva]
    rfl
  rw [hstep]
  refine ⟨rfl, rfl, rfl, rfl, rfl, ?_⟩
  simp [Except.map]

/-- Witness for claim C6: a just-initialized environment taking its only
valid action `C`. -/
theorem claim_C6_witness :
    (¬(m0W.max_steps ≤ m0W._counter ∨ m0W._goal_reached = true) ∧
     "C" ∈ m0W._valid_actions ∧
     get_valid_actions trivOracle (some "C") m0W.atom_types m0W.allow_removal
       m0W.allow_no_modification m0W.allowed_ring_sizes
       m0W.allow_bonds_between_rings = .ok {"C"}) ∧
    ((Molecule.step trivOracle m0W "C").1 = .ok
      { state := some "C", reward := 0,
        terminated := decide (m0W.max_steps ≤ m0W._counter + 1) ||
          goalOn m0W.target_fn (some "C") } ∧
     (Molecule.step trivOracle m0W "C").2._state = some "C" ∧
     (Molecule.step trivOracle m0W "C").2._counter = m0W._counter + 1 ∧
     (Molecule.step trivOracle m0W "C").2._valid_actions = {"C"} ∧
     (Molecule.step trivOracle m0W "C").2._path =
       (if m0W.record_path = true then m0W._path ++ [some "C"] else m0W._path) ∧
     ((Molecule.step trivOracle m0W "C").1.map Result.terminated = .ok true ↔
       (m0W.max_steps ≤ m0W._counter + 1 ∨ goalOn m0W.target_fn (some "C") = true))) :=
  ⟨⟨by decide, by decide, rfl⟩,
   claim_C6_successful_step trivOracle m0W "C" {"C"} (by decide) (by decide) rfl⟩

theorem step_ok_fields {G : Type} (o : Oracle G) (m : Molecule G) (a : String)
    (r : Result) (m' : Molecule G)
    (h : Molecule.step o m a = (.ok r, m')) :
    m'._state = some a ∧
    m'._path = (if m.record_path = true then m._path ++ [some a] else m._path) ∧
    m'.record_path = m.record_path ∧ m'.init_mol = m.init_mol ∧
    m'._counter = m._counter + 1 := by
  by_cases h1 : m.max_steps ≤ m._counter ∨ m._goal_reached = true
  · have h2 : ((.error EpisodeTerminatedError : Except PyError Result), m) = (.ok r, m') := by
      rw [← h]
      simp only [Molecule.step]
      rw [if_pos h1]
    simp at h2
  · by_cases h2 : a ∉ m._valid_actions
    · have h3 : ((.error InvalidActionError : Except PyError Result), m) = (.ok r, m') := by
        rw [← h]
        simp only [Molecule.step]
        rw [if_neg h1, if_pos h2]
      simp at h3
    · rcases hg : Molecule.get_valid_actions o (stepCommit m a) none true with ⟨res, m2⟩
      obtain ⟨hf1, hf2, hf3, hf4, hf5, hf6, hf7, hf8⟩ :=
        gva_frame o (stepCommit m a) none true res m2 hg
      cases res with
      | error e =>
        have h3 : ((.error e : Except PyError Result), m2) = (.ok r, m') := by
          rw [← h]
          simp only [Molecule.step]
          rw [if_neg h1, if_neg h2, hg]
        simp at h3
      | ok va =>
        have h3 : ((.ok
              { state := m2._state, reward := 0,
                terminated := decide (m2.max_steps ≤ m2._counter + 1) ||
                  goalOn m2.target_fn m2._state } : Except PyError Result),
            ({ m2 with _valid_actions := va, _counter := m2._counter + 1 } :
              Molecule G)) = (.ok r, m') := by
          rw [← h]
          simp only [Molecule.step]
          rw [if_neg h1, if_neg h2, hg]
          rfl
        cases h3
        refine ⟨hf1, hf2, hf4, hf5, ?_⟩
        show m2._counter + 1 = m._counter + 1
        rw [hf3]
        rfl

theorem reset_ok_fields {G : Type} (o : Oracle G) (m : Molecule G) (u : Unit)
    (m0 : Molecule G) (h : Molecule.reset o m = (.ok u, m0)) :
    m0._state = m.init_mol ∧
    m0._path = (if m.record_path = true then [m.init_mol] else m._path) ∧
    m0.record_path = m.record_path ∧ m0.init_mol = m.init_mol ∧
    m0._counter = 0 := by
  rcases hg : Molecule.get_valid_actions o (resetCommit m) none true with ⟨res, m2⟩
  obtain ⟨hf1, hf2, hf3, hf4, hf5, hf6, hf7, hf8⟩ :=
    gva_frame o (resetCommit m) none true res m2 hg
  cases res with
  | error e =>
    have h2 : ((.error e : Except PyError Unit), m2) = (.ok u, m0) := by
      rw [← h]
      simp only [Molecule.reset]
      rw [hg]
    simp at h2
  | ok va =>
    have h2 : ((.ok () : Except PyError Unit),
        ({ m2 with _valid_actions := va, _counter := 0 } : Molecule G)) =
        (.ok u, m0) := by
      rw [← h]
      simp only [Molecule.reset]
      rw [hg]
    cases h2
    exact ⟨hf1, hf2, hf4, hf5, rfl⟩

theorem runSteps_path_invariant {G : Type} (o : Oracle G) (as : List String) :
    ∀ m mk : Molecule G, m.record_path = true → m._path ≠ [] →
      m._path.getLast? = some m._state → runSteps o m as = some mk →
      mk.record_path = true ∧ mk._path ≠ [] ∧
      mk._path.getLast? = some mk._state ∧
      mk._path.length = m._path.length + as.length ∧
      mk._path.head? = m._path.head? := by
  induction as with
  | nil =>
    intro m mk h1 h2 h3 h4
    have h5 : some m = some mk := h4
    cases h5
    exact ⟨h1, h2, h3, by simp, rfl⟩
  | cons a as ih =>
    intro m mk h1 h2 h3 h4
    simp only [runSteps] at h4
    rcases hs : Molecule.step o m a with ⟨res, m'⟩
    rw [hs] at h4
    cases res with
    | error e =>
      have h5 : (none : Option (Molecule G)) = some mk := h4
      cases h5
    | ok r =>
      have h4' : runSteps o m' as = some mk := h4
      obtain ⟨hs1, hs2, hs3, _, _⟩ := step_ok_fields o m a r m' hs
      have h1' : m'.record_path = true := hs3.trans h1
      have hp' : m'._path = m._path ++ [some a] := by rw [hs2, if_pos h1]
      have h2' : m'._path ≠ [] := by rw [hp']; simp
      have h3' : m'._path.getLast? = some m'._state := by
        rw [hp', hs1, List.getLast?_concat]
      have hres := ih m' mk h1' h2' h3' h4'
      refine ⟨hres.1, hres.2.1, hres.2.2.1, ?_, ?_⟩
      · rw [hres.2.2.2.1, hp', List.length_append]
        simp
        omega
      · rw [hres.2.2.2.2, hp']
        cases hm : m._path with
        | nil => exact absurd hm h2
        | cons x xs => simp

/-- Claim C8: with path recording enabled, after a successful
`initialize()` followed by any `k` successful steps, `get_path()` has
length `k + 1`, its first element is the initial state, and its last
element equals the `state` accessor; the invariant is preserved by every
successful step. -/
theorem claim_C8_path_recording {G : Type} (o : Oracle G) (m : Molecule G)
    (as : List String) (mk : Molecule G)
    (hrp : m.record_path = true)
    (hres : (Molecule.reset o m).1 = .ok ())
    (hrun : runSteps o (Molecule.reset o m).2 as = some mk) :
    (Molecule.get_path mk).length = as.length + 1 ∧
    (Molecule.get_path mk).head? = some m.init_mol ∧
    (Molecule.get_path mk).getLast? = some (Molecule.state mk) := by
  have hsplit : Molecule.reset o m = ((Molecule.reset o m).1, (Molecule.reset o m).2) := rfl
  rw [hres] at hsplit
  obtain ⟨hr1, hr2, hr3, hr4, hr5⟩ :=
    reset_ok_fields o m () (Molecule.reset o m).2 hsplit
  have hpath0 : (Molecule.reset o m).2._path = [m.init_mol] := by
    rw [hr2, if_pos hrp]
  have h1' : (Molecule.reset o m).2.record_path = true := hr3.trans hrp
  have h2' : (Molecule.reset o m).2._path ≠ [] := by rw [hpath0]; simp
  have h3' : (Molecule.reset o m).2._path.getLast? =
      some (Molecule.reset o m).2._state := by
    rw [hpath0, hr1]
    rfl
  obtain ⟨k1, k2, k3, k4, k5⟩ :=
    runSteps_path_invariant o as (Molecule.reset o m).2 mk h1' h2' h3' hrun
  refine ⟨?_, ?_, k3⟩
  · rw [show (Molecule.get_path mk) = mk._path from rfl, k4, hpath0]
    simp only [List.length_singleton]
    omega
  · rw [show (Molecule.get_path mk) = mk._path from rfl, k5, hpath0]
    rfl

/-- Witness for claim C8: one recorded step on the concrete environment. -/
theorem claim_C8_witness :
    (mW.record_path = true ∧ (Molecule.reset trivOracle mW).1 = .ok () ∧
     runSteps trivOracle (Molecule.reset trivOracle mW).2 ["C"] = some mkW) ∧
    ((Molecule.get_path mkW).length = ["C"].length + 1 ∧
     (Molecule.get_path mkW).head? = some mW.init_mol ∧
     (Molecule.get_path mkW).getLast? = some (Molecule.state mkW)) :=
  ⟨⟨rfl, rfl, rfl⟩, claim_C8_path_recording trivOracle mW ["C"] mkW rfl rfl rfl⟩

theorem step_invalid_action_eq {G : Type} (o : Oracle G) (m : Molecule G)
    (a : String)
    (hterm : ¬(m.max_steps ≤ m._counter ∨ m._goal_reached = true))
    (hmem : a ∉ m._valid_actions) :
    Molecule.step o m a = (.error InvalidActionError, m) := by
  unfold Molecule.step
  rw [if_neg hterm, if_pos hmem]

theorem step_not_invalid_action {G : Type} (o : Oracle G) (m : Molecule G)
    (a : String)
    (hterm : ¬(m.max_steps ≤ m._counter ∨ m._goal_reached = true))
    (hmem : a ∈ m._valid_actions) :
    (Molecule.step o m a).1 ≠ .error InvalidActionError := by
  intro hbad
  rcases hg : Molecule.get_valid_actions o (stepCommit m a) none true with ⟨res, m2⟩
  cases res with
  | error e =>
    have hstep : Molecule.step o m a = (.error e, m2) := by
      simp only [Molecule.step]
      rw [if_neg hterm, if_neg (fun h => h hmem), hg]
    rw [hstep] at hbad
    have he : e = InvalidActionError := by
      simpa using hbad
    have ht := mgva_error_is_typeerror o (stepCommit m a) none true e m2 hg
    rw [he] at ht
    simp [InvalidActionError] at ht
  | ok va =>
    have hstep : (Molecule.step o m a).1 = .ok
        { state := m2._state, reward := 0,
          terminated := decide (m2.max_steps ≤ m2._counter + 1) ||
            goalOn m2.target_fn m2._state } := by
      simp only [Molecule.step]
      rw [if_neg hterm, if_neg (fun h => h hmem), hg]
      rfl
    rw [hstep] at hbad
    simp at hbad

/-- Claim C10: `get_valid_actions` with an explicit state `s` (or with an
empty cache, even without `force_rebuild`) recomputes the action space and
overwrites the internal cache without changing the current state or the
counter, so a subsequent `step` checks membership against the action space
of `s` (invalid-action error exactly for actions outside it). -/
theorem claim_C10_explicit_state_overwrites_cache {G : Type} (o : Oracle G)
    (m : Molecule G) (s : String) (force : Bool) (va : Finset String)
    (hok : get_valid_actions o (some s) m.atom_types m.allow_removal
      m.allow_no_modification m.allowed_ring_sizes m.allow_bonds_between_rings =
      .ok va) :
    (Molecule.get_valid_actions o m (some s) force).1 = .ok va ∧
    (Molecule.get_valid_actions o m (some s) force).2._valid_actions = va ∧
    (Molecule.get_valid_actions o m (some s) force).2._state = m._state ∧
    (Molecule.get_valid_actions o m (some s) force).2._counter = m._counter ∧
    (∀ va2, m._valid_actions = ∅ →
      get_valid_actions o m._state m.atom_types m.allow_removal
        m.allow_no_modification m.allowed_ring_sizes m.allow_bonds_between_rings =
        .ok va2 →
      (Molecule.get_valid_actions o m none false).1 = .ok va2 ∧
      (Molecule.get_valid_actions o m none false).2._valid_actions = va2 ∧
      (Molecule.get_valid_actions o m none false).2._state = m._state) ∧
    (¬(m.max_steps ≤ m._counter ∨ m._goal_reached = true) →
      ∀ a, (a ∉ va →
        (Molecule.step o (Molecule.get_valid_actions o m (some s) force).2 a).1 =
          .error InvalidActionError) ∧
      (a ∈ va →
        (Molecule.step o (Molecule.get_valid_actions o m (some s) force).2 a).1 ≠
          .error InvalidActionError)) := by
  have hx : Molecule.get_valid_actions o m (some s) force =
      (.ok va, { m with _valid_actions := va }) := by
    simp only [Molecule.get_valid_actions, Molecule.rebuildActions]
    rw [hok]
  refine ⟨by rw [hx], by rw [hx], by rw [hx], by rw [hx], ?_, ?_⟩
  · intro va2 hcache hok2
    have hy : Molecule.get_valid_actions o m none false =
        (.ok va2, { m with _valid_actions := va2 }) := by
      simp only [Molecule.get_valid_actions]
      rw [if_neg (by simp [hcache])]
      simp only [Molecule.rebuildActions]
      rw [hok2]
    exact ⟨by rw [hy], by rw [hy], by rw [hy]⟩
  · intro hterm a
    rw [hx]
    constructor
    · intro hn
      rw [step_invalid_action_eq o ({ m with _valid_actions := va } : Molecule G)
        a hterm hn]
    · intro ha
      exact step_not_invalid_action o ({ m with _valid_actions := va } : Molecule G)
        a hterm ha

/-- Witness for claim C10 on the concrete environment with explicit state
`C`. -/
theorem claim_C10_witness :
    (get_valid_actions trivOracle (some "C") m0W.atom_types m0W.allow_removal
      m0W.allow_no_modification m0W.allowed_ring_sizes
      m0W.allow_bonds_between_rings = .ok {"C"}) ∧
    ((Molecule.get_valid_actions trivOracle m0W (some "C") false).1 = .ok {"C"} ∧
     (Molecule.get_valid_actions trivOracle m0W (some "C") false).2._valid_actions =
       {"C"} ∧
     (Molecule.get_valid_actions trivOracle m0W (some "C") false).2._state =
       m0W._state ∧
     (Molecule.get_valid_actions trivOracle m0W (some "C") false).2._counter =
       m0W._counter ∧
     (∀ va2, m0W._valid_actions = ∅ →
       get_valid_actions trivOracle m0W._state m0W.atom_types m0W.allow_removal
         m0W.allow_no_modification m0W.allowed_ring_sizes
         m0W.allow_bonds_between_rings = .ok va2 →
       (Molecule.get_valid_actions trivOracle m0W none false).1 = .ok va2 ∧
       (Molecule.get_valid_actions trivOracle m0W none false).2._valid_actions = va2 ∧
       (Molecule.get_valid_actions trivOracle m0W none false).2._state = m0W._state) ∧
     (¬(m0W.max_steps ≤ m0W._counter ∨ m0W._goal_reached = true) →
       ∀ a, (a ∉ ({"C"} : Finset String) →
         (Molecule.step trivOracle
           (Molecule.get_valid_actions trivOracle m0W (some "C") false).2 a).1 =
           .error InvalidActionError) ∧
       (a ∈ ({"C"} : Finset String) →
         (Molecule.step trivOracle
           (Molecule.get_valid_actions trivOracle m0W (some "C") false).2 a).1 ≠
           .error InvalidActionError))) :=
  ⟨rfl, claim_C10_explicit_state_overwrites_cache trivOracle m0W "C" false {"C"} rfl⟩

end MolEnv
